import Mathlib

/-!
Verification of the hello-world-2000 repository.

The program consists of two entry points:
  - src/src/hello.cpp: builds the JSON record inline
    (json j of two members: "Hello" mapped to "World", "args" mapped to argv)
    and writes it, followed by a newline, to standard output;
  - src/src/main.cpp: builds the same record via hello::greet and writes it
    the same way.

We embed the nlohmann::json values that the program constructs as an
inductive type of JSON trees restricted to the constructors the program
uses (strings, arrays, objects), together with the compact serialization
produced by streaming a json value to std::cout (nlohmann's dump with no
indentation and ensure_ascii = false), including its character-escaping
rules.  A parser for the emitted fragment of JSON lets us state the
round-trip property of the output text.
-/

namespace Hello2000

/-- JSON values as constructed by the program: strings, arrays and objects
(the program never builds numbers, booleans or null). An object is a list
of members in serialization order; nlohmann stores members sorted by key,
and the single object the program builds, with keys "Hello" and "args",
is already in sorted order, so the member list below is the serialization
order. -/
inductive Json where
  | str (s : String)
  | arr (elems : List Json)
  | obj (members : List (String × Json))

/-- Lower-case hexadecimal digit, as emitted by nlohmann's dump for
escaped control characters. -/
def hexDigit (n : Nat) : Char :=
  if n < 10 then Char.ofNat (0x30 + n) else Char.ofNat (0x61 + (n - 10))

/-- Escaping of one character in a JSON string literal, following
nlohmann's dump (ensure_ascii = false): quote and backslash are escaped,
the five named control characters get their short escapes, the remaining
control characters below 0x20 become a lower-case \u00xy escape, and
every other character is emitted verbatim. -/
def escapeChar (c : Char) : List Char :=
  if c = '\x22' then ['\\', '\x22']
  else if c = '\\' then ['\\', '\\']
  else if c = '\x08' then ['\\', 'b']
  else if c = '\t' then ['\\', 't']
  else if c = '\n' then ['\\', 'n']
  else if c = '\x0c' then ['\\', 'f']
  else if c = '\r' then ['\\', 'r']
  else if c.toNat < 0x20 then
    ['\\', 'u', '0', '0', hexDigit (c.toNat / 16), hexDigit (c.toNat % 16)]
  else [c]

/-- Escape every character of a string body. -/
def escapeList (cs : List Char) : List Char :=
  (cs.map escapeChar).flatten

/-- Serialized JSON string literal: opening quote, escaped body, closing
quote. -/
def quoteString (s : String) : List Char :=
  '\x22' :: (escapeList s.data ++ ['\x22'])

mutual

/-- Compact serialization of a Json value, as produced by
`std::cout << j` on an nlohmann::json value (dump with no indentation:
no whitespace after separators). -/
def serialize : Json → List Char
  | .str s => quoteString s
  | .arr es => '[' :: (serializeElems es ++ [']'])
  | .obj ms => '\x7b' :: (serializeMembers ms ++ ['\x7d'])

/-- Comma-separated serialization of array elements. -/
def serializeElems : List Json → List Char
  | [] => []
  | [j] => serialize j
  | j :: j2 :: rest => serialize j ++ (',' :: serializeElems (j2 :: rest))

/-- Comma-separated serialization of object members, each as
quoted key, colon, value. -/
def serializeMembers : List (String × Json) → List Char
  | [] => []
  | [(k, v)] => quoteString k ++ (':' :: serialize v)
  | (k, v) :: m :: rest =>
      (quoteString k ++ (':' :: serialize v)) ++ (',' :: serializeMembers (m :: rest))

end

/-- Embeds line 8 of src/src/hello.cpp: the initializer-list construction
of the json value, an object with member "Hello" mapped to the string
"World" and member "args" mapped to the array of the argument strings in
order. -/
def buildGreeting (args : List String) : Json :=
  Json.obj [("Hello", Json.str "World"), ("args", Json.arr (args.map Json.str))]

/-- Modelled from the spec: the function hello::greet declared in
core/hello.h and called by src/src/main.cpp and src/test/main.cpp; its
implementation file is not in the repository snapshot.  Per the spec's
Greeting Builder contract it returns a structured record equivalent to a
mapping with two keys, "Hello" mapped to the literal string "World" and
"args" mapped to the input sequence unchanged, in the same order. -/
def greet (args : List String) : Json :=
  Json.obj [("Hello", Json.str "World"), ("args", Json.arr (args.map Json.str))]

/-- Embeds main of src/src/hello.cpp: collect argv into a vector, build
the record inline, stream it to std::cout followed by "\n".  The result
models the successful run: the full text written to standard output and
the process exit code (0, from the implicit return of main). -/
def helloMainRun (argv : List String) : List Char × Nat :=
  (serialize (buildGreeting argv) ++ ['\n'], 0)

/-- Embeds main of src/src/main.cpp: collect argv into a vector of
strings, call hello::greet on it, stream the result to std::cout followed
by "\n"; exit code 0 from the implicit return of main. -/
def mainRun (argv : List String) : List Char × Nat :=
  (serialize (greet argv) ++ ['\n'], 0)

/-- Keys of a Json object, in member order; none when the value is not an
object. -/
def keysOf : Json → Option (List String)
  | .obj ms => some (ms.map Prod.fst)
  | _ => none

/-- Look a key up in a Json object. -/
def lookupKey : Json → String → Option Json
  | .obj ms, k => ms.lookup k
  | _, _ => none

/-- View of a Json value as a string. -/
def asString : Json → Option String
  | .str s => some s
  | _ => none

/-- The greeting field: value of the "Hello" key, read as a string. -/
def greetingOf (j : Json) : Option String :=
  (lookupKey j "Hello").bind asString

/-- The args field: value of the "args" key, read as an array of
strings. -/
def argsOf (j : Json) : Option (List String) :=
  (lookupKey j "args").bind fun v =>
    match v with
    | .arr es => es.mapM asString
    | _ => none

/-- Value of one hexadecimal digit character, lower case. -/
def hexVal (c : Char) : Option Nat :=
  if '0' ≤ c ∧ c ≤ '9' then some (c.toNat - '0'.toNat)
  else if 'a' ≤ c ∧ c ≤ 'f' then some (c.toNat - 'a'.toNat + 10)
  else none

/-- Inverse of the short escapes emitted inside string literals. -/
def unescapeChar (c : Char) : Option Char :=
  if c = '\x22' then some '\x22'
  else if c = '\\' then some '\\'
  else if c = 'b' then some '\x08'
  else if c = 't' then some '\t'
  else if c = 'n' then some '\n'
  else if c = 'f' then some '\x0c'
  else if c = 'r' then some '\r'
  else none

/-- Parse the body of a JSON string literal after its opening quote,
undoing the escapes; returns the decoded characters and the input
remaining after the closing quote. -/
def parseStringTail : List Char → Option (List Char × List Char)
  | [] => none
  | c :: rest =>
    if c = '\x22' then some ([], rest)
    else if c = '\\' then
      match rest with
      | [] => none
      | e :: rest2 =>
        if e = 'u' then
          match rest2 with
          | h1 :: h2 :: h3 :: h4 :: rest3 =>
            match hexVal h1, hexVal h2, hexVal h3, hexVal h4 with
            | some a, some b, some x, some d =>
              (parseStringTail rest3).map fun p =>
                (Char.ofNat (((a * 16 + b) * 16 + x) * 16 + d) :: p.1, p.2)
            | _, _, _, _ => none
          | _ => none
        else
          match unescapeChar e with
          | some u => (parseStringTail rest2).map fun p => (u :: p.1, p.2)
          | none => none
    else
      (parseStringTail rest).map fun p => (c :: p.1, p.2)

/-- Parse one or more comma-separated string elements followed by the
closing bracket of an array.  The fuel argument bounds the number of
elements; the callers pass the input length, which always suffices. -/
def parseElems : Nat → List Char → Option (List Json × List Char)
  | 0, _ => none
  | fuel + 1, l =>
    match l with
    | [] => none
    | c :: rest =>
      if c = '\x22' then
        match parseStringTail rest with
        | none => none
        | some (cs, r) =>
          match r with
          | ',' :: r2 =>
            match parseElems fuel r2 with
            | some (es, r3) => some (Json.str (String.mk cs) :: es, r3)
            | none => none
          | ']' :: r2 => some ([Json.str (String.mk cs)], r2)
          | _ => none
      else none

/-- Parse the tail of an array after its opening bracket: either an
immediate closing bracket (empty array) or a non-empty element list. -/
def parseArrayTail (fuel : Nat) (l : List Char) : Option (Json × List Char) :=
  match l with
  | [] => none
  | c :: rest =>
    if c = ']' then some (Json.arr [], rest)
    else
      match parseElems fuel (c :: rest) with
      | some (es, r) => some (Json.arr es, r)
      | none => none

/-- Parse one JSON value of the fragment the program emits: a string
literal or an array of string literals. -/
def parseValue (fuel : Nat) (l : List Char) : Option (Json × List Char) :=
  match l with
  | [] => none
  | c :: rest =>
    if c = '\x22' then
      match parseStringTail rest with
      | some (cs, r) => some (Json.str (String.mk cs), r)
      | none => none
    else if c = '[' then parseArrayTail fuel rest
    else none

/-- Parse one or more comma-separated object members, each a quoted key,
a colon and a value, followed by the closing brace of the object. -/
def parseMembers : Nat → List Char → Option (List (String × Json) × List Char)
  | 0, _ => none
  | fuel + 1, l =>
    match l with
    | [] => none
    | c :: rest =>
      if c = '\x22' then
        match parseStringTail rest with
        | none => none
        | some (kcs, r) =>
          match r with
          | ':' :: r2 =>
            match parseValue fuel r2 with
            | none => none
            | some (v, r3) =>
              match r3 with
              | ',' :: r4 =>
                match parseMembers fuel r4 with
                | some (ms, r5) => some ((String.mk kcs, v) :: ms, r5)
                | none => none
              | '\x7d' :: r4 => some ([(String.mk kcs, v)], r4)
              | _ => none
          | _ => none
      else none

/-- Parse the tail of an object after its opening brace. -/
def parseObjectTail (fuel : Nat) (l : List Char) : Option (Json × List Char) :=
  match l with
  | [] => none
  | c :: rest =>
    if c = '\x7d' then some (Json.obj [], rest)
    else
      match parseMembers fuel (c :: rest) with
      | some (ms, r) => some (Json.obj ms, r)
      | none => none

/-- Parse a complete line of output as a JSON object, requiring the whole
input to be consumed. -/
def parseTopLine (l : List Char) : Option Json :=
  match l with
  | [] => none
  | c :: rest =>
    if c = '\x7b' then
      match parseObjectTail l.length rest with
      | some (j, []) => some j
      | _ => none
    else none

theorem mapM_asString_map_str (A : List String) :
    (A.map Json.str).mapM asString = some A := by
  induction A with
  | nil => rfl
  | cons a A ih =>
      rw [List.map_cons, List.mapM_cons, ih]
      rfl

theorem hexVal_hexDigit (k : Nat) (h : k < 16) : hexVal (hexDigit k) = some k := by
  interval_cases k <;> decide

theorem parseStringTail_escape (cs : List Char) (rest : List Char) :
    parseStringTail (escapeList cs ++ ('\x22' :: rest)) = some (cs, rest) := by
  induction cs with
  | nil =>
      show parseStringTail ('\x22' :: rest) = some ([], rest)
      rw [parseStringTail.eq_def]
      simp
  | cons c cs ih =>
      have hesc : escapeList (c :: cs) ++ ('\x22' :: rest) =
          escapeChar c ++ (escapeList cs ++ ('\x22' :: rest)) := by
        simp [escapeList]
      rw [hesc]
      by_cases h1 : c = '\x22'
      · subst h1
        rw [show escapeChar '\x22' ++ (escapeList cs ++ ('\x22' :: rest)) =
            '\\' :: '\x22' :: (escapeList cs ++ ('\x22' :: rest)) from rfl]
        rw [parseStringTail.eq_def]
        simp [unescapeChar, ih]
      by_cases h2 : c = '\\'
      · subst h2
        rw [show escapeChar '\\' ++ (escapeList cs ++ ('\x22' :: rest)) =
            '\\' :: '\\' :: (escapeList cs ++ ('\x22' :: rest)) from rfl]
        rw [parseStringTail.eq_def]
        simp [unescapeChar, ih]
      by_cases h3 : c = '\x08'
      · subst h3
        rw [show escapeChar '\x08' ++ (escapeList cs ++ ('\x22' :: rest)) =
            '\\' :: 'b' :: (escapeList cs ++ ('\x22' :: rest)) from rfl]
        rw [parseStringTail.eq_def]
        simp [unescapeChar, ih]
      by_cases h4 : c = '\t'
      · subst h4
        rw [show escapeChar '\t' ++ (escapeList cs ++ ('\x22' :: rest)) =
            '\\' :: 't' :: (escapeList cs ++ ('\x22' :: rest)) from rfl]
        rw [parseStringTail.eq_def]
        simp [unescapeChar, ih]
      by_cases h5 : c = '\n'
      · subst h5
        rw [show escapeChar '\n' ++ (escapeList cs ++ ('\x22' :: rest)) =
            '\\' :: 'n' :: (escapeList cs ++ ('\x22' :: rest)) from rfl]
        rw [parseStringTail.eq_def]
        simp [unescapeChar, ih]
      by_cases h6 : c = '\x0c'
      · subst h6
        rw [show escapeChar '\x0c' ++ (escapeList cs ++ ('\x22' :: rest)) =
            '\\' :: 'f' :: (escapeList cs ++ ('\x22' :: rest)) from rfl]
        rw [parseStringTail.eq_def]
        simp [unescapeChar, ih]
      by_cases h7 : c = '\r'
      · subst h7
        rw [show escapeChar '\r' ++ (escapeList cs ++ ('\x22' :: rest)) =
            '\\' :: 'r' :: (escapeList cs ++ ('\x22' :: rest)) from rfl]
        rw [parseStringTail.eq_def]
        simp [unescapeChar, ih]
      by_cases h8 : c.toNat < 0x20
      · have hhi : hexVal (hexDigit (c.toNat / 16)) = some (c.toNat / 16) :=
          hexVal_hexDigit _ (by omega)
        have hlo : hexVal (hexDigit (c.toNat % 16)) = some (c.toNat % 16) :=
          hexVal_hexDigit _ (by omega)
        have h0 : hexVal '0' = some 0 := by decide
        have he : escapeChar c =
            ['\\', 'u', '0', '0', hexDigit (c.toNat / 16), hexDigit (c.toNat % 16)] := by
          simp [escapeChar, h1, h2, h3, h4, h5, h6, h7, h8]
        rw [he]
        simp only [List.cons_append, List.nil_append]
        rw [parseStringTail.eq_def]
        simp [h0, hhi, hlo, ih]
        have hmod : c.toNat / 16 * 16 + c.toNat % 16 = c.toNat := by omega
        rw [hmod, Char.ofNat_toNat]
      · have he : escapeChar c = [c] := by
          simp [escapeChar, h1, h2, h3, h4, h5, h6, h7, h8]
        rw [he]
        simp only [List.cons_append, List.nil_append]
        rw [parseStringTail.eq_def]
        simp [h1, h2, ih]

theorem parseElems_roundtrip (ss : List String) :
    ∀ (f : Nat) (rest : List Char), ss ≠ [] → ss.length ≤ f →
    parseElems f (serializeElems (ss.map Json.str) ++ (']' :: rest)) =
      some (ss.map Json.str, rest) := by
  induction ss with
  | nil => intro f rest hne _; cases hne rfl
  | cons s ss ih =>
      intro f rest _ hf
      obtain ⟨f', rfl⟩ : ∃ f', f = f' + 1 :=
        ⟨f - 1, by have hl : (s :: ss).length = ss.length + 1 := rfl; omega⟩
      cases ss with
      | nil =>
          rw [show serializeElems ([s].map Json.str) ++ (']' :: rest) =
              '\x22' :: (escapeList s.data ++ ('\x22' :: (']' :: rest))) by
            simp [serializeElems, serialize, quoteString]]
          rw [parseElems.eq_def]
          simp [parseStringTail_escape]
      | cons s2 ss2 =>
          rw [show serializeElems ((s :: s2 :: ss2).map Json.str) ++ (']' :: rest) =
              '\x22' :: (escapeList s.data ++ ('\x22' ::
                (',' :: (serializeElems ((s2 :: ss2).map Json.str) ++ (']' :: rest))))) by
            simp [serializeElems, serialize, quoteString]]
          rw [parseElems.eq_def]
          have hrec := ih f' rest (by simp) (by
            have h1 : (s :: s2 :: ss2).length = ss2.length + 2 := rfl
            have h2 : (s2 :: ss2).length = ss2.length + 1 := rfl
            omega)
          simp only [List.map_cons] at hrec
          simp [parseStringTail_escape, hrec]

theorem parseElems_head (f : Nat) (l : List Char) (x : List Json × List Char)
    (h : parseElems f l = some x) : ∃ t, l = '\x22' :: t := by
  cases f with
  | zero => rw [parseElems.eq_def] at h; cases h
  | succ f =>
      cases l with
      | nil => rw [parseElems.eq_def] at h; cases h
      | cons c t =>
          refine ⟨t, ?_⟩
          by_cases hc : c = '\x22'
          · rw [hc]
          · rw [parseElems.eq_def] at h; simp [hc] at h

theorem parseArrayTail_roundtrip (ss : List String) (f : Nat) (rest : List Char)
    (hf : ss.length ≤ f) :
    parseArrayTail f (serializeElems (ss.map Json.str) ++ (']' :: rest)) =
      some (Json.arr (ss.map Json.str), rest) := by
  cases ss with
  | nil =>
      rw [show serializeElems (([] : List String).map Json.str) ++ (']' :: rest) =
          ']' :: rest by simp [serializeElems]]
      rw [parseArrayTail.eq_def]
      simp
  | cons s ss2 =>
      have hE := parseElems_roundtrip (s :: ss2) f rest (by simp) hf
      obtain ⟨t, ht⟩ := parseElems_head f _ _ hE
      rw [ht] at hE ⊢
      rw [parseArrayTail.eq_def]
      simp [hE]

theorem parseMembers_greeting (A : List String) (g : Nat) (rest : List Char)
    (hg : A.length + 2 ≤ g) :
    parseMembers g
      ('\x22' :: (escapeList "Hello".data ++ ('\x22' :: (':' ::
       ('\x22' :: (escapeList "World".data ++ ('\x22' :: (',' ::
       ('\x22' :: (escapeList "args".data ++ ('\x22' :: (':' ::
       ('[' :: (serializeElems (A.map Json.str) ++
         (']' :: ('\x7d' :: rest))))))))))))))))
      = some ([("Hello", Json.str "World"),
               ("args", Json.arr (A.map Json.str))], rest) := by
  obtain ⟨f, rfl⟩ : ∃ f, g = (f + 1) + 1 := ⟨g - 2, by omega⟩
  have hA := parseArrayTail_roundtrip A f ('\x7d' :: rest) (by omega)
  rw [parseMembers.eq_def]
  simp [parseStringTail_escape, parseValue.eq_def, parseMembers.eq_def, hA]

theorem length_serializeElems_str (ss : List String) :
    ss.length ≤ (serializeElems (ss.map Json.str)).length + 1 := by
  induction ss with
  | nil => simp
  | cons s ss ih =>
      cases ss with
      | nil => simp [serializeElems, serialize, quoteString]
      | cons s2 ss2 =>
          rw [show serializeElems ((s :: s2 :: ss2).map Json.str) =
              quoteString s ++ (',' :: serializeElems ((s2 :: ss2).map Json.str)) by
            simp [serializeElems, serialize]]
          have h1 : (s2 :: ss2).length = ss2.length + 1 := rfl
          have h2 : (s :: s2 :: ss2).length = ss2.length + 2 := rfl
          simp only [List.length_append, List.length_cons, quoteString] at *
          omega

theorem parseMembers_head (f : Nat) (l : List Char)
    (x : List (String × Json) × List Char)
    (h : parseMembers f l = some x) : ∃ t, l = '\x22' :: t := by
  cases f with
  | zero => rw [parseMembers.eq_def] at h; cases h
  | succ f =>
      cases l with
      | nil => rw [parseMembers.eq_def] at h; cases h
      | cons c t =>
          refine ⟨t, ?_⟩
          by_cases hc : c = '\x22'
          · rw [hc]
          · rw [parseMembers.eq_def] at h; simp [hc] at h

theorem parseObjectTail_of_members (f : Nat) (l : List Char)
    (ms : List (String × Json)) (r : List Char)
    (h : parseMembers f l = some (ms, r)) :
    parseObjectTail f l = some (Json.obj ms, r) := by
  obtain ⟨t, rfl⟩ := parseMembers_head f l _ h
  rw [parseObjectTail.eq_def]
  simp [h]

theorem parseTopLine_of_objectTail (t : List Char) (j : Json)
    (h : parseObjectTail (t.length + 1) t = some (j, [])) :
    parseTopLine ('\x7b' :: t) = some j := by
  rw [parseTopLine.eq_def]
  simp [h]

theorem serialize_buildGreeting_norm (A : List String) :
    serialize (buildGreeting A) =
      '\x7b' :: ('\x22' :: (escapeList "Hello".data ++ ('\x22' :: (':' ::
       ('\x22' :: (escapeList "World".data ++ ('\x22' :: (',' ::
       ('\x22' :: (escapeList "args".data ++ ('\x22' :: (':' ::
       ('[' :: (serializeElems (A.map Json.str) ++
         (']' :: ('\x7d' :: [])))))))))))))))) := by
  simp [buildGreeting, serialize, serializeMembers, quoteString]

/-- Round trip of the program's output line: parsing the serialized
greeting record yields the record back.  Shared by the theorems for C7
and C9. -/
theorem parseTopLine_serialize_buildGreeting (A : List String) :
    parseTopLine (serialize (buildGreeting A)) = some (buildGreeting A) := by
  have hlb := length_serializeElems_str A
  have hH : (escapeList "Hello".data).length = 5 := rfl
  have hW : (escapeList "World".data).length = 5 := rfl
  have hG : (escapeList "args".data).length = 4 := rfl
  rw [serialize_buildGreeting_norm]
  refine parseTopLine_of_objectTail _ _ (parseObjectTail_of_members _ _ _ _ ?_)
  refine parseMembers_greeting A _ [] ?_
  simp only [List.length_append, List.length_cons, List.length_nil, hH, hW, hG]
  omega

/-- C1: for every sequence of strings A, the Greeting Builder (the inline
record construction of src/src/hello.cpp) returns a record equivalent to
a mapping with exactly two keys, "Hello" mapped to the literal string
"World" and "args" mapped to the input sequence unchanged and in the same
order. -/
theorem buildGreeting_record_shape (A : List String) :
    keysOf (buildGreeting A) = some ["Hello", "args"] ∧
    lookupKey (buildGreeting A) "Hello" = some (Json.str "World") ∧
    lookupKey (buildGreeting A) "args" = some (Json.arr (A.map Json.str)) ∧
    argsOf (buildGreeting A) = some A := by
  refine ⟨rfl, rfl, rfl, ?_⟩
  show (A.map Json.str).mapM asString = some A
  exact mapM_asString_map_str A

/-- C2: for every sequence of strings A, including the empty sequence,
the args field of the record produced by the Greeting Builder equals A
exactly: same elements, same order, same count. -/
theorem argsOf_buildGreeting (A : List String) :
    argsOf (buildGreeting A) = some A := by
  show (A.map Json.str).mapM asString = some A
  exact mapM_asString_map_str A

/-- C3: for every sequence of strings A, the greeting field of the record
produced by the Greeting Builder is the constant string "World",
independent of the input. -/
theorem greetingOf_buildGreeting (A : List String) :
    greetingOf (buildGreeting A) = some "World" := rfl

/-- C4: the Greeting Builder is total: for every sequence of strings,
including the empty one, it returns a structured record (an object with
the two fields); being a pure Lean function of its argument, it has no
side effects or error conditions. -/
theorem buildGreeting_total (A : List String) :
    ∃ g v, buildGreeting A = Json.obj [("Hello", g), ("args", v)] :=
  ⟨Json.str "World", Json.arr (A.map Json.str), rfl⟩

/-- C5: calling the Greeting Builder twice with the same input sequence
yields structurally equal records. -/
theorem buildGreeting_deterministic (A B : List String) (h : A = B) :
    buildGreeting A = buildGreeting B := by rw [h]

/-- Witness for C5 at the concrete input ["prog", "x"]. -/
theorem buildGreeting_deterministic_witness :
    buildGreeting ["prog", "x"] = buildGreeting ["prog", "x"] :=
  buildGreeting_deterministic ["prog", "x"] ["prog", "x"] rfl

theorem hexDigit_ne_newline (k : Nat) (h : k < 16) : hexDigit k ≠ '\n' := by
  interval_cases k <;> decide

theorem newline_not_mem_escapeChar (c : Char) : '\n' ∉ escapeChar c := by
  by_cases h1 : c = '\x22'
  · subst h1; decide
  by_cases h2 : c = '\\'
  · subst h2; decide
  by_cases h3 : c = '\x08'
  · subst h3; decide
  by_cases h4 : c = '\t'
  · subst h4; decide
  by_cases h5 : c = '\n'
  · subst h5; decide
  by_cases h6 : c = '\x0c'
  · subst h6; decide
  by_cases h7 : c = '\r'
  · subst h7; decide
  by_cases h8 : c.toNat < 0x20
  · have he : escapeChar c =
        ['\\', 'u', '0', '0', hexDigit (c.toNat / 16), hexDigit (c.toNat % 16)] := by
      simp [escapeChar, h1, h2, h3, h4, h5, h6, h7, h8]
    rw [he]
    have hhi := hexDigit_ne_newline (c.toNat / 16) (by omega)
    have hlo := hexDigit_ne_newline (c.toNat % 16) (by omega)
    intro hmem
    simp only [List.mem_cons, List.not_mem_nil, or_false] at hmem
    rcases hmem with h | h | h | h | h | h
    · exact absurd h (by decide)
    · exact absurd h (by decide)
    · exact absurd h (by decide)
    · exact absurd h (by decide)
    · exact hhi h.symm
    · exact hlo h.symm
  · have he : escapeChar c = [c] := by
      simp [escapeChar, h1, h2, h3, h4, h5, h6, h7, h8]
    rw [he]
    intro hmem
    simp only [List.mem_cons, List.not_mem_nil, or_false] at hmem
    exact h5 hmem.symm

theorem newline_not_mem_escapeList (cs : List Char) : '\n' ∉ escapeList cs := by
  simp only [escapeList, List.mem_flatten, List.mem_map]
  rintro ⟨l, ⟨c, _, rfl⟩, hmem⟩
  exact newline_not_mem_escapeChar c hmem

theorem newline_not_mem_serializeElems (ss : List String) :
    '\n' ∉ serializeElems (ss.map Json.str) := by
  induction ss with
  | nil => simp [serializeElems]
  | cons s ss ih =>
      cases ss with
      | nil =>
          rw [show serializeElems ([s].map Json.str) = quoteString s by
            simp [serializeElems, serialize]]
          intro hmem
          simp only [quoteString, List.mem_cons, List.mem_append,
            List.not_mem_nil, or_false] at hmem
          rcases hmem with h | h | h
          · exact absurd h (by decide)
          · exact newline_not_mem_escapeList s.data h
          · exact absurd h (by decide)
      | cons s2 ss2 =>
          rw [show serializeElems ((s :: s2 :: ss2).map Json.str) =
              quoteString s ++ (',' :: serializeElems ((s2 :: ss2).map Json.str)) by
            simp [serializeElems, serialize]]
          intro hmem
          simp only [quoteString, List.mem_cons, List.mem_append,
            List.not_mem_nil, or_false, List.map_cons] at hmem
          simp only [List.map_cons] at ih
          rcases hmem with (h | h | h) | h | h
          · exact absurd h (by decide)
          · exact newline_not_mem_escapeList s.data h
          · exact absurd h (by decide)
          · exact absurd h (by decide)
          · exact ih h

/-- Shared by the theorems for C6, C7 and C9: the serialized greeting
record contains no newline character, so the program's output is a single
line terminated by the one appended newline. -/
theorem newline_not_mem_serialize_buildGreeting (A : List String) :
    '\n' ∉ serialize (buildGreeting A) := by
  rw [serialize_buildGreeting_norm]
  intro hmem
  simp only [List.mem_cons, List.mem_append, List.not_mem_nil, or_false] at hmem
  rcases hmem with h | h | h | h | h | h | h | h | h | h | h | h | h | h | h | h | h
  · exact absurd h (by decide)
  · exact absurd h (by decide)
  · exact newline_not_mem_escapeList _ h
  · exact absurd h (by decide)
  · exact absurd h (by decide)
  · exact absurd h (by decide)
  · exact newline_not_mem_escapeList _ h
  · exact absurd h (by decide)
  · exact absurd h (by decide)
  · exact absurd h (by decide)
  · exact newline_not_mem_escapeList _ h
  · exact absurd h (by decide)
  · exact absurd h (by decide)
  · exact absurd h (by decide)
  · exact newline_not_mem_serializeElems A h
  · exact absurd h (by decide)
  · exact absurd h (by decide)

/-- C6: the Entry Point of src/src/main.cpp collects the invocation
arguments, passes them to the Greeting Builder, writes the serialized
record followed by exactly one newline to standard output (the record
itself contains no newline), and terminates with exit code 0. -/
theorem mainRun_entryPoint (argv : List String) :
    mainRun argv = (serialize (greet argv) ++ ['\n'], 0) ∧
    '\n' ∉ serialize (greet argv) ∧
    ((mainRun argv).1.count '\n') = 1 := by
  refine ⟨rfl, newline_not_mem_serialize_buildGreeting argv, ?_⟩
  have h : '\n' ∉ serialize (greet argv) :=
    newline_not_mem_serialize_buildGreeting argv
  simp [mainRun, List.count_append, List.count_eq_zero.mpr h]

/-- C7: invoked with no arguments beyond the program name, the program
writes a single line (one newline, at the end) that parses as an object
whose key "Hello" has value "World" and whose key "args" holds an array
with the program's invocation name as its first element. -/
theorem mainRun_progName_only (prog : String) :
    ∃ line ms, mainRun [prog] = (line ++ ['\n'], 0) ∧ '\n' ∉ line ∧
      parseTopLine line = some (Json.obj ms) ∧
      ms.lookup "Hello" = some (Json.str "World") ∧
      ∃ elems, ms.lookup "args" = some (Json.arr elems) ∧
        elems.head? = some (Json.str prog) := by
  refine ⟨serialize (buildGreeting [prog]),
    [("Hello", Json.str "World"), ("args", Json.arr [Json.str prog])],
    rfl, newline_not_mem_serialize_buildGreeting [prog],
    parseTopLine_serialize_buildGreeting [prog], rfl,
    [Json.str prog], rfl, rfl⟩

/-- C9: for every invocation the program's standard output is a single
line followed by a newline, and that line is valid structured text
parsing back into an object with exactly the two expected keys, "Hello"
and "args", and no others. -/
theorem helloMainRun_output_parses (A : List String) :
    ∃ line ms, helloMainRun A = (line ++ ['\n'], 0) ∧ '\n' ∉ line ∧
      parseTopLine line = some (Json.obj ms) ∧
      ms.map Prod.fst = ["Hello", "args"] ∧
      ms.lookup "Hello" = some (Json.str "World") ∧
      ms.lookup "args" = some (Json.arr (A.map Json.str)) := by
  refine ⟨serialize (buildGreeting A),
    [("Hello", Json.str "World"), ("args", Json.arr (A.map Json.str))],
    rfl, newline_not_mem_serialize_buildGreeting A,
    parseTopLine_serialize_buildGreeting A, rfl, rfl, rfl⟩

/-- C10: for every invocation-argument sequence the standalone program of
src/src/hello.cpp (record built inline) and the program of
src/src/main.cpp (record built via hello::greet, modelled from the spec)
write the same text to standard output and exit with the same code. -/
theorem helloMain_main_equivalent (argv : List String) :
    helloMainRun argv = mainRun argv := rfl

end Hello2000
